import Mathlib

/-!
Verification of the focal-plane modeling pipeline
(`notebooks/ztf/Focal_plane_modeling.ipynb`).

The notebook fits star positions from the 64 readout quadrants of the ZTF
camera.  Its computational core, embedded here over `ℚ` (exact arithmetic in
place of the notebook's floats), is:

* a pooled ordinary-least-squares fit of the projected coordinates `eta`/`nu`
  against local pixel coordinates with a full per-quadrant interaction design
  (`smf.ols('eta ~ x_image + y_image + C(rcid) -1 + C(rcid)*x_image +
  C(rcid)*y_image')`), modelled by the normal-equation predicate `isOLSLin`;
* the per-quadrant table `rcmeta` deriving a 2x2 CD matrix and, by inverting
  it against the negated per-quadrant offsets, a pixel origin
  (`crpix1`, `crpix2`) — modelled by `rcCd`, `rcEntry`, `rcmetaTable`,
  with `params.get` modelled as an `Option`-valued lookup and the numpy
  matrix-inversion failure / `None`-lookup failure as `Except` errors;
* the global-coordinate assembly (`x_global = x_image - crpix1`, `etalin =
  x_global*cd11 + y_global*cd12`, ...) — `assembleObs`;
* the quadratic distortion fit
  (`eta ~ np.power(etalin,2) + np.power(nulin,2) + etalin*nulin + etalin +
  nulin`, implicit intercept) — `quadPred`, `isOLSQuad`;
* the TPV coefficient extraction `pv_start` — `pvStart`;
* the `.ahead` header construction and `totextfile` write — `outputHeader`,
  `serializeHeader`, `writeTextFile`.
-/

namespace FocalPlane

/-- One matched star: readout-channel id `rcid` (an integer from 0 to 63 in
the notebook's data), quadrant-local pixel coordinates `x`/`y`
(`x_image`/`y_image`), and tangent-plane projected coordinates `eta`/`nu`. -/
structure Obs where
  rcid : ℕ
  x : ℚ
  y : ℚ
  eta : ℚ
  nu : ℚ
deriving DecidableEq

/-- The regression coefficients of one axis of the linear fit, structured by
the terms of the patsy design
`eta ~ x_image + y_image + C(rcid) -1 + C(rcid)*x_image + C(rcid)*y_image`:
`xco`/`yco` are the base `x_image`/`y_image` slopes, `lvl j` the full-rank
dummy coefficient `C(rcid)[j]`, `ix j`/`iy j` the treatment-coded interaction
coefficients `C(rcid)[T.j]:x_image` / `C(rcid)[T.j]:y_image` (for `j ≥ 1`). -/
structure LinParams where
  xco : ℚ
  yco : ℚ
  lvl : ℕ → ℚ
  ix : ℕ → ℚ
  iy : ℕ → ℚ

/-- The columns of the linear design matrix produced by the formula. -/
inductive LinCol where
  | colX : LinCol
  | colY : LinCol
  | colLvl : ℕ → LinCol
  | colIX : ℕ → LinCol
  | colIY : ℕ → LinCol
deriving DecidableEq

/-- Value of a design column at an observation. -/
def LinCol.eval : LinCol → Obs → ℚ
  | LinCol.colX, o => o.x
  | LinCol.colY, o => o.y
  | LinCol.colLvl j, o => if o.rcid = j then 1 else 0
  | LinCol.colIX j, o => (if o.rcid = j then 1 else 0) * o.x
  | LinCol.colIY j, o => (if o.rcid = j then 1 else 0) * o.y

/-- The full column list of the linear design: base slopes, 64 full-rank
quadrant dummies, and 63 treatment-coded interactions per pixel axis. -/
def linCols : List LinCol :=
  LinCol.colX :: LinCol.colY ::
    ((List.range 64).map LinCol.colLvl ++
      ((List.range 63).map (fun j => LinCol.colIX (j + 1)) ++
        (List.range 63).map (fun j => LinCol.colIY (j + 1))))

/-- Coefficient assigned by a parameter set to a design column. -/
def LinParams.coef (p : LinParams) : LinCol → ℚ
  | LinCol.colX => p.xco
  | LinCol.colY => p.yco
  | LinCol.colLvl j => p.lvl j
  | LinCol.colIX j => p.ix j
  | LinCol.colIY j => p.iy j

/-- Effective `x_image` slope for quadrant `i`: base slope plus the
treatment-coded interaction for `i > 0` (level 0 is the reference level). -/
def linSlopeX (p : LinParams) (i : ℕ) : ℚ :=
  p.xco + if i = 0 then 0 else p.ix i

/-- Effective `y_image` slope for quadrant `i`. -/
def linSlopeY (p : LinParams) (i : ℕ) : ℚ :=
  p.yco + if i = 0 then 0 else p.iy i

/-- Fitted value of the linear model at an observation: the per-quadrant
intercept plus the per-quadrant slopes applied to the local pixel
coordinates. -/
def linPred (p : LinParams) (o : Obs) : ℚ :=
  p.lvl o.rcid + linSlopeX p o.rcid * o.x + linSlopeY p o.rcid * o.y

/-- Fitted value written as the design-matrix row dotted with the
coefficient vector (the form in which OLS sees the model). -/
def colPred (p : LinParams) (o : Obs) : ℚ :=
  (linCols.map (fun c => p.coef c * c.eval o)).sum

/-- `p` satisfies the normal equations of the pooled ordinary-least-squares
problem fitting `resp` over the linear design: the residual vector is
orthogonal to every design column.  This characterizes the stationary points
of the least-squares objective, hence the coefficient sets `smf.ols(...).fit()`
can return. -/
def isOLSLin (p : LinParams) (data : List Obs) (resp : Obs → ℚ) : Prop :=
  ∀ c ∈ linCols, (data.map (fun o => (resp o - linPred p o) * c.eval o)).sum = 0

/-- Errors of the per-quadrant table construction: a `params.get` returning
`None` (missing regression term), or the numpy `LinAlgError` raised by
`cd**-1` on a singular matrix. -/
inductive RcError where
  | missingCoef : RcError
  | singularMatrix : RcError
deriving DecidableEq

/-- One entry of the `rcmeta` dictionary. -/
structure RcEntry where
  cd11 : ℚ
  cd12 : ℚ
  cd21 : ℚ
  cd22 : ℚ
  crpix1 : ℚ
  crpix2 : ℚ
deriving DecidableEq

/-- The CD-matrix part of one `rcmeta` iteration: base slopes from
`params.get('x_image')` / `params.get('y_image')` of each axis, with the
`C(rcid)[T.i]:...` interaction added when `i > 0`.  A `params.get` is an
`Option`-valued lookup; arithmetic on a Python `None` raises, modelled as
`Except.error .missingCoef`. -/
def rcCd (xp yp : LinCol → Option ℚ) (i : ℕ) : Except RcError (ℚ × ℚ × ℚ × ℚ) :=
  match xp LinCol.colX, xp LinCol.colY, yp LinCol.colX, yp LinCol.colY with
  | some c11, some c12, some c21, some c22 =>
      if i = 0 then
        Except.ok (c11, c12, c21, c22)
      else
        match xp (LinCol.colIX i), xp (LinCol.colIY i),
              yp (LinCol.colIX i), yp (LinCol.colIY i) with
        | some d11, some d12, some d21, some d22 =>
            Except.ok (c11 + d11, c12 + d12, c21 + d21, c22 + d22)
        | _, _, _, _ => Except.error RcError.missingCoef
  | _, _, _, _ => Except.error RcError.missingCoef

/-- One iteration of the `rcmeta` loop: build the CD matrix, invert it
(`invcd = cd**-1`, raising on a singular matrix), look up the per-quadrant
offsets `C(rcid)[i]` of both axes, and set
`crpix = invcd * [[-offset_x], [-offset_y]]`, written out with the explicit
2x2 inverse `(1/det) * [[c22, -c12], [-c21, c11]]`. -/
def rcEntry (xp yp : LinCol → Option ℚ) (i : ℕ) : Except RcError RcEntry :=
  match rcCd xp yp i with
  | Except.error err => Except.error err
  | Except.ok (c11, c12, c21, c22) =>
      if c11 * c22 - c12 * c21 = 0 then
        Except.error RcError.singularMatrix
      else
        match xp (LinCol.colLvl i), yp (LinCol.colLvl i) with
        | some ox, some oy =>
            Except.ok
              { cd11 := c11, cd12 := c12, cd21 := c21, cd22 := c22,
                crpix1 := (c22 * (-ox) - c12 * (-oy)) / (c11 * c22 - c12 * c21),
                crpix2 := (-c21 * (-ox) + c11 * (-oy)) / (c11 * c22 - c12 * c21) }
        | _, _ => Except.error RcError.missingCoef

/-- The `for i in range(n)` loop filling the `rcmeta` dictionary; any raised
error aborts the whole construction (the error of the earliest failing
iteration is the one surfaced). -/
def buildTable (xp yp : LinCol → Option ℚ) : ℕ → Except RcError (List (ℕ × RcEntry))
  | 0 => Except.ok []
  | n + 1 =>
      match buildTable xp yp n, rcEntry xp yp n with
      | Except.ok t, Except.ok e => Except.ok (t ++ [(n, e)])
      | Except.error err, _ => Except.error err
      | _, Except.error err => Except.error err

/-- The complete `rcmeta` table over the fixed quadrant enumeration 0..63. -/
def rcmetaTable (xp yp : LinCol → Option ℚ) : Except RcError (List (ℕ × RcEntry)) :=
  buildTable xp yp 64

/-- Parameter lookup induced by a structured coefficient set in which every
term of the design is present (the situation after a successful pooled fit
with all 64 levels populated). -/
def toLookup (p : LinParams) : LinCol → Option ℚ :=
  fun c => some (p.coef c)

/-- An observation after global-coordinate assembly: `xg`/`yg` are the
`x_global`/`y_global` columns, `etalin`/`nulin` the linearized projected
coordinates, and `eta`/`nu` are carried over unchanged. -/
structure AObs where
  xg : ℚ
  yg : ℚ
  etalin : ℚ
  nulin : ℚ
  eta : ℚ
  nu : ℚ
deriving DecidableEq

/-- Global-coordinate assembly for one observation, given its quadrant's
`rcmeta` entry: `x_global = x_image - crpix1`, `y_global = y_image - crpix2`,
`etalin = x_global*cd11 + y_global*cd12`,
`nulin  = x_global*cd21 + y_global*cd22`. -/
def assembleObs (e : RcEntry) (o : Obs) : AObs :=
  { xg := o.x - e.crpix1
    yg := o.y - e.crpix2
    etalin := (o.x - e.crpix1) * e.cd11 + (o.y - e.crpix2) * e.cd12
    nulin := (o.x - e.crpix1) * e.cd21 + (o.y - e.crpix2) * e.cd22
    eta := o.eta
    nu := o.nu }

/-- Assembly of the whole table, each observation using its own quadrant's
entry (`tbl` is the populated `rcmeta` mapping). -/
def assembleData (tbl : ℕ → RcEntry) (data : List Obs) : List AObs :=
  data.map (fun o => assembleObs (tbl o.rcid) o)

/-- The terms of the quadratic distortion formula
`eta ~ np.power(etalin,2) + np.power(nulin,2) + etalin*nulin + etalin + nulin`
as named by patsy: the implicit intercept, the two linear terms, the two
pure quadratic terms, and the cross term `etalin:nulin`. -/
inductive QuadTerm where
  | tIntercept : QuadTerm
  | tEtalin : QuadTerm
  | tNulin : QuadTerm
  | tEtalin2 : QuadTerm
  | tNulin2 : QuadTerm
  | tCross : QuadTerm
deriving DecidableEq

/-- Value of a quadratic-design term at an assembled observation. -/
def QuadTerm.evalA : QuadTerm → AObs → ℚ
  | QuadTerm.tIntercept, _ => 1
  | QuadTerm.tEtalin, a => a.etalin
  | QuadTerm.tNulin, a => a.nulin
  | QuadTerm.tEtalin2, a => a.etalin * a.etalin
  | QuadTerm.tNulin2, a => a.nulin * a.nulin
  | QuadTerm.tCross, a => a.etalin * a.nulin

/-- Term list of the quadratic design, in patsy's materialized order. -/
def quadTerms : List QuadTerm :=
  [QuadTerm.tIntercept, QuadTerm.tEtalin2, QuadTerm.tNulin2,
   QuadTerm.tEtalin, QuadTerm.tNulin, QuadTerm.tCross]

/-- Fitted value of the quadratic model (coefficients `γ` keyed by term). -/
def quadPred (γ : QuadTerm → ℚ) (a : AObs) : ℚ :=
  (quadTerms.map (fun t => γ t * t.evalA a)).sum

/-- Normal equations of the pooled quadratic ordinary-least-squares fit. -/
def isOLSQuad (γ : QuadTerm → ℚ) (adata : List AObs) (resp : AObs → ℚ) : Prop :=
  ∀ t ∈ quadTerms, (adata.map (fun a => (resp a - quadPred γ a) * t.evalA a)).sum = 0

/-- The ten TPV distortion coefficients extracted into `pv_start`. -/
structure PvStart where
  pv1_1 : ℚ
  pv1_2 : ℚ
  pv1_4 : ℚ
  pv1_5 : ℚ
  pv1_6 : ℚ
  pv2_1 : ℚ
  pv2_2 : ℚ
  pv2_4 : ℚ
  pv2_5 : ℚ
  pv2_6 : ℚ
deriving DecidableEq

/-- The `pv_start` extraction from the two quadratic fits (`xq` for the
`eta` axis, `yq` for the `nu` axis), exactly as in the notebook:
`PV1_1 = xres 'etalin'`, `PV1_2 = xres 'nulin'`,
`PV1_4 = xres 'np.power(etalin, 2)'`, `PV1_5 = xres 'etalin:nulin'`,
`PV1_6 = xres 'np.power(nulin, 2)'`,
`PV2_1 = yres 'nulin'`, `PV2_2 = yres 'etalin'`,
`PV2_4 = yres 'np.power(nulin, 2)'`, `PV2_5 = yres 'etalin:nulin'`,
`PV2_6 = yres 'np.power(etalin, 2)'`. -/
def pvStart (xq yq : QuadTerm → ℚ) : PvStart :=
  { pv1_1 := xq QuadTerm.tEtalin
    pv1_2 := xq QuadTerm.tNulin
    pv1_4 := xq QuadTerm.tEtalin2
    pv1_5 := xq QuadTerm.tCross
    pv1_6 := xq QuadTerm.tNulin2
    pv2_1 := yq QuadTerm.tNulin
    pv2_2 := yq QuadTerm.tEtalin
    pv2_4 := yq QuadTerm.tNulin2
    pv2_5 := yq QuadTerm.tCross
    pv2_6 := yq QuadTerm.tEtalin2 }

/-- A FITS header card value: integer, string, or floating value (exact
rational in this embedding). -/
inductive HVal where
  | int : ℤ → HVal
  | str : String → HVal
  | flt : ℚ → HVal
deriving DecidableEq

/-- The `.ahead` output header assembled for the selected quadrant `rc`
(its `rcmeta` entry) together with the shared distortion coefficients and
the shared reference position `(crval1, crval2) = (TELRAD, TELDECD)`,
card for card as in the notebook. -/
def outputHeader (rc : RcEntry) (pv : PvStart) (crval1 crval2 : ℚ) :
    List (String × HVal) :=
  [("NAXIS", HVal.int 2),
   ("NAXIS1", HVal.int 3072),
   ("NAXIS2", HVal.int 3080),
   ("CTYPE1", HVal.str "RA---TPV"),
   ("CTYPE2", HVal.str "DEC--TPV"),
   ("CRVAL1", HVal.flt crval1),
   ("CRVAL2", HVal.flt crval2),
   ("CRPIX1", HVal.flt rc.crpix1),
   ("CRPIX2", HVal.flt rc.crpix2),
   ("CD1_1", HVal.flt rc.cd11),
   ("CD1_2", HVal.flt rc.cd12),
   ("CD2_1", HVal.flt rc.cd21),
   ("CD2_2", HVal.flt rc.cd22),
   ("PV1_1", HVal.flt pv.pv1_1),
   ("PV1_2", HVal.flt pv.pv1_2),
   ("PV1_4", HVal.flt pv.pv1_4),
   ("PV1_5", HVal.flt pv.pv1_5),
   ("PV1_6", HVal.flt pv.pv1_6),
   ("PV2_1", HVal.flt pv.pv2_1),
   ("PV2_2", HVal.flt pv.pv2_2),
   ("PV2_4", HVal.flt pv.pv2_4),
   ("PV2_5", HVal.flt pv.pv2_5),
   ("PV2_6", HVal.flt pv.pv2_6)]

/-- The ten expected distortion-coefficient key names. -/
def pvKeyList : List String :=
  ["PV1_1", "PV1_2", "PV1_4", "PV1_5", "PV1_6",
   "PV2_1", "PV2_2", "PV2_4", "PV2_5", "PV2_6"]

/-- The four expected linear-coefficient key names. -/
def cdKeyList : List String :=
  ["CD1_1", "CD1_2", "CD2_1", "CD2_2"]

/-- Text rendering of one card value. -/
def HVal.render : HVal → String
  | HVal.int n => toString n
  | HVal.str s => s
  | HVal.flt q => toString q.num ++ "/" ++ toString q.den

/-- Plain-text serialization of a header, one key-value pair per line
(the `totextfile` card text). -/
def serializeHeader (h : List (String × HVal)) : String :=
  String.intercalate "\n" (h.map (fun kv => kv.1 ++ "= " ++ HVal.render kv.2))

/-- A file system as a mapping from paths to file contents. -/
def FileSys : Type := String → Option String

/-- Writing a text file at a path, overwriting whatever was there. -/
def writeTextFile (fs : FileSys) (path content : String) : FileSys :=
  fun p => if p = path then some content else fs p

/-- `output_header.totextfile(path, overwrite=True)`: serialize the header
and overwrite the target path. -/
def totextfileM (h : List (String × HVal)) (path : String) (fs : FileSys) : FileSys :=
  writeTextFile fs path (serializeHeader h)

instance {ε α : Type} [DecidableEq ε] [DecidableEq α] : DecidableEq (Except ε α) :=
  fun a b =>
    match a, b with
    | Except.ok x, Except.ok y =>
        if h : x = y then Decidable.isTrue (by rw [h])
        else Decidable.isFalse (by intro hc; injection hc; contradiction)
    | Except.ok _, Except.error _ => Decidable.isFalse (by intro hc; cases hc)
    | Except.error _, Except.ok _ => Decidable.isFalse (by intro hc; cases hc)
    | Except.error e, Except.error f =>
        if h : e = f then Decidable.isTrue (by rw [h])
        else Decidable.isFalse (by intro hc; injection hc; contradiction)

/-- Uniform rescaling of the projected coordinates of one observation (the
effect, on the loaded table, of changing the projection's angular-to-linear
scale from 1 to `1/s` degrees per unit). -/
def scaleObs (s : ℚ) (o : Obs) : Obs :=
  { o with eta := s * o.eta, nu := s * o.nu }

/-- Uniform rescaling of a whole dataset's projected coordinates. -/
def scaleData (s : ℚ) (d : List Obs) : List Obs :=
  d.map (scaleObs s)

/-- Scaling every coefficient of one axis of the linear fit by `s` (the
transformation a response scaled by `s` induces on OLS solutions). -/
def smulLin (s : ℚ) (p : LinParams) : LinParams :=
  { xco := s * p.xco
    yco := s * p.yco
    lvl := fun j => s * p.lvl j
    ix := fun j => s * p.ix j
    iy := fun j => s * p.iy j }

/-- CD matrix scaled by `s`, pixel origin untouched. -/
def scaleEntry (s : ℚ) (e : RcEntry) : RcEntry :=
  { e with cd11 := s * e.cd11, cd12 := s * e.cd12,
           cd21 := s * e.cd21, cd22 := s * e.cd22 }

/-- Assembled observation with all projected-plane columns scaled by `s`
(global pixel coordinates unchanged). -/
def scaleAObs (s : ℚ) (a : AObs) : AObs :=
  { a with etalin := s * a.etalin, nulin := s * a.nulin,
           eta := s * a.eta, nu := s * a.nu }

/-- The transformation a uniform scale `s` of response and linearized
coordinates induces on the quadratic-fit coefficients: the intercept scales
by `s`, the linear coefficients are unchanged, the quadratic and cross
coefficients scale by `1/s`. -/
def scaleQuad (s : ℚ) (γ : QuadTerm → ℚ) : QuadTerm → ℚ
  | QuadTerm.tIntercept => s * γ QuadTerm.tIntercept
  | QuadTerm.tEtalin => γ QuadTerm.tEtalin
  | QuadTerm.tNulin => γ QuadTerm.tNulin
  | QuadTerm.tEtalin2 => γ QuadTerm.tEtalin2 / s
  | QuadTerm.tNulin2 => γ QuadTerm.tNulin2 / s
  | QuadTerm.tCross => γ QuadTerm.tCross / s

/-- Pointwise update of a quadratic coefficient set at one term. -/
def updQ (f : QuadTerm → ℚ) (t : QuadTerm) (v : ℚ) : QuadTerm → ℚ :=
  fun t' => if t' = t then v else f t'

/-- Three synthetic stars for quadrant `i`: the non-collinear local pixel
positions (0,0), (1,0), (0,1) with projected coordinates generated exactly
by the identity transform with zero offset (`eta = x`, `nu = y`). -/
def genObs (i : ℕ) : List Obs :=
  [{ rcid := i, x := 0, y := 0, eta := 0, nu := 0 },
   { rcid := i, x := 1, y := 0, eta := 1, nu := 0 },
   { rcid := i, x := 0, y := 1, eta := 0, nu := 1 }]

/-- A synthetic noiseless dataset covering all 64 quadrants. -/
def data0 : List Obs := (List.range 64).flatMap genObs

/-- Exact-fit coefficients of the `eta` axis on `data0` (`eta = x_image`). -/
def pIdX : LinParams :=
  { xco := 1, yco := 0, lvl := fun _ => 0, ix := fun _ => 0, iy := fun _ => 0 }

/-- Exact-fit coefficients of the `nu` axis on `data0` (`nu = y_image`). -/
def pIdY : LinParams :=
  { xco := 0, yco := 1, lvl := fun _ => 0, ix := fun _ => 0, iy := fun _ => 0 }

/-- The identity `rcmeta` entry every quadrant of `data0` derives. -/
def idEntry : RcEntry :=
  { cd11 := 1, cd12 := 0, cd21 := 0, cd22 := 1, crpix1 := 0, crpix2 := 0 }

/-- Constant affine-model table assigning `idEntry` to every quadrant. -/
def idTable : ℕ → RcEntry := fun _ => idEntry

/-- Exact-fit quadratic coefficients for the `eta` axis on assembled
`data0` (`eta = etalin`). -/
def gEta : QuadTerm → ℚ := fun t => if t = QuadTerm.tEtalin then 1 else 0

/-- Exact-fit quadratic coefficients for the `nu` axis on assembled
`data0` (`nu = nulin`). -/
def gNu : QuadTerm → ℚ := fun t => if t = QuadTerm.tNulin then 1 else 0

/-- A parameter lookup in which the dummy coefficient of quadrant 5 is
absent (the situation when quadrant 5 contributes no observations, so the
categorical term has no level 5): `params.get` returns `None` there. -/
def xpBad : LinCol → Option ℚ :=
  fun c => match c with
    | LinCol.colLvl 5 => none
    | c => toLookup pIdX c

/-- Concrete distinct quadratic-fit coefficients for the `eta` axis. -/
def xq0 : QuadTerm → ℚ
  | QuadTerm.tIntercept => 1
  | QuadTerm.tEtalin => 2
  | QuadTerm.tNulin => 3
  | QuadTerm.tEtalin2 => 4
  | QuadTerm.tNulin2 => 5
  | QuadTerm.tCross => 6

/-- Concrete distinct quadratic-fit coefficients for the `nu` axis. -/
def yq0 : QuadTerm → ℚ
  | QuadTerm.tIntercept => 7
  | QuadTerm.tEtalin => 8
  | QuadTerm.tNulin => 9
  | QuadTerm.tEtalin2 => 10
  | QuadTerm.tNulin2 => 11
  | QuadTerm.tCross => 12

/-- The treatment-coded parameter set representing, for one axis, the exact
per-quadrant affine model with slopes `s i`, `t i` and offset `b i`: level 0
is the reference level, the interactions carry the differences. -/
def encodeLin (s t b : ℕ → ℚ) : LinParams :=
  { xco := s 0, yco := t 0, lvl := b,
    ix := fun j => s j - s 0, iy := fun j => t j - t 0 }

/-- The eta/nu axis swap on regression-term names: the two linear terms are
exchanged and the two pure quadratic terms are exchanged; the intercept and
the cross term are fixed. -/
def swapT : QuadTerm → QuadTerm
  | QuadTerm.tEtalin => QuadTerm.tNulin
  | QuadTerm.tNulin => QuadTerm.tEtalin
  | QuadTerm.tEtalin2 => QuadTerm.tNulin2
  | QuadTerm.tNulin2 => QuadTerm.tEtalin2
  | t => t

/-! ## General list-sum lemmas used for normal-equation reasoning -/

theorem lsumCongr {α : Type} {l : List α} {f g : α → ℚ} (h : ∀ a ∈ l, f a = g a) :
    (l.map f).sum = (l.map g).sum := by
  induction l with
  | nil => rfl
  | cons a l ih =>
      simp only [List.map_cons, List.sum_cons]
      rw [h a (by simp), ih (fun b hb => h b (by simp [hb]))]

theorem lsumSub {α : Type} (l : List α) (f g : α → ℚ) :
    (l.map (fun a => f a - g a)).sum = (l.map f).sum - (l.map g).sum := by
  induction l with
  | nil => simp
  | cons a l ih =>
      simp only [List.map_cons, List.sum_cons, ih]
      ring

theorem lsumAdd {α : Type} (l : List α) (f g : α → ℚ) :
    (l.map (fun a => f a + g a)).sum = (l.map f).sum + (l.map g).sum := by
  induction l with
  | nil => simp
  | cons a l ih =>
      simp only [List.map_cons, List.sum_cons, ih]
      ring

theorem lsumZero {α : Type} (l : List α) :
    (l.map (fun _ => (0 : ℚ))).sum = 0 := by
  induction l with
  | nil => rfl
  | cons a l ih => simp [ih]

theorem lsumSwap {α β : Type} (l : List α) (m : List β) (F : α → β → ℚ) :
    (l.map (fun a => (m.map (fun b => F a b)).sum)).sum
      = (m.map (fun b => (l.map (fun a => F a b)).sum)).sum := by
  induction l with
  | nil => simp [lsumZero]
  | cons a l ih =>
      simp only [List.map_cons, List.sum_cons, ih]
      rw [← lsumAdd]

theorem lsumNonnegZero {α : Type} {l : List α} {f : α → ℚ}
    (h0 : ∀ a ∈ l, 0 ≤ f a) (hs : (l.map f).sum = 0) : ∀ a ∈ l, f a = 0 := by
  induction l with
  | nil => intro a ha; cases ha
  | cons b l ih =>
      have hb : 0 ≤ f b := h0 b (by simp)
      have hrest : ∀ a ∈ l, 0 ≤ f a := fun a ha => h0 a (by simp [ha])
      have hsum : 0 ≤ (l.map f).sum := by
        apply List.sum_nonneg
        intro x hx
        obtain ⟨a, ha, rfl⟩ := List.mem_map.mp hx
        exact hrest a ha
      simp only [List.map_cons, List.sum_cons] at hs
      have hb0 : f b = 0 := by linarith
      have hl0 : (l.map f).sum = 0 := by linarith
      intro a ha
      rcases List.mem_cons.mp ha with h | h
      · rw [h]; exact hb0
      · exact ih hrest hl0 a h

theorem sumRangeInd (g : ℕ → ℚ) (n r : ℕ) :
    ((List.range n).map (fun j => g j * (if r = j then 1 else 0))).sum
      = if r < n then g r else 0 := by
  induction n with
  | zero => simp
  | succ n ih =>
      rw [List.range_succ, List.map_append, List.sum_append, ih]
      simp only [List.map_cons, List.map_nil, List.sum_cons, List.sum_nil]
      by_cases h1 : r < n
      · have h2 : r ≠ n := by omega
        have h3 : r < n + 1 := by omega
        simp [h1, h2, h3]
      · by_cases h2 : r = n
        · subst h2
          simp [h1]
        · have h3 : ¬r < n + 1 := by omega
          simp [h1, h2, h3]

theorem sumRangeIndShift (g : ℕ → ℚ) (n r : ℕ) :
    ((List.range n).map (fun j => g (j + 1) * (if r = j + 1 then 1 else 0))).sum
      = if 1 ≤ r ∧ r < n + 1 then g r else 0 := by
  cases r with
  | zero =>
      have h : ∀ j ∈ List.range n,
          g (j + 1) * (if 0 = j + 1 then 1 else 0) = (0 : ℚ) := by
        intro j _
        simp
      rw [lsumCongr h, lsumZero]
      simp
  | succ k =>
      have h : ∀ j ∈ List.range n,
          g (j + 1) * (if k + 1 = j + 1 then 1 else 0)
            = (fun j => g (j + 1)) j * (if k = j then 1 else 0) := by
        intro j _
        simp [Nat.add_right_cancel_iff]
      rw [lsumCongr h, sumRangeInd (fun j => g (j + 1)) n k]
      by_cases hk : k < n
      · have : 1 ≤ k + 1 ∧ k + 1 < n + 1 := by omega
        simp [hk, this]
      · have : ¬(1 ≤ k + 1 ∧ k + 1 < n + 1) := by omega
        simp [hk, this]

/-! ## Structure of the linear design -/

theorem colPred_eq_linPred (p : LinParams) (o : Obs) (h : o.rcid < 64) :
    colPred p o = linPred p o := by
  unfold colPred linCols
  simp only [List.map_cons, List.sum_cons, List.map_append, List.sum_append,
    List.map_map, Function.comp_def]
  have h1 : (((List.range 64).map (fun j => p.coef (LinCol.colLvl j) *
      (LinCol.colLvl j).eval o))).sum = p.lvl o.rcid := by
    have := sumRangeInd p.lvl 64 o.rcid
    simp only [LinParams.coef, LinCol.eval] at *
    rw [show ((List.range 64).map (fun j => p.lvl j *
        (if o.rcid = j then 1 else 0))).sum = p.lvl o.rcid from by rw [this]; simp [h]]
  have h2 : (((List.range 63).map (fun j => p.coef (LinCol.colIX (j + 1)) *
      (LinCol.colIX (j + 1)).eval o))).sum
        = (if 1 ≤ o.rcid ∧ o.rcid < 64 then p.ix o.rcid else 0) * o.x := by
    have hc : ∀ j ∈ List.range 63,
        p.coef (LinCol.colIX (j + 1)) * (LinCol.colIX (j + 1)).eval o
          = (fun j => p.ix (j + 1) * (if o.rcid = j + 1 then 1 else 0)) j * o.x := by
      intro j _
      simp only [LinParams.coef, LinCol.eval]
      ring
    rw [lsumCongr hc, List.sum_map_mul_right, sumRangeIndShift p.ix 63 o.rcid]
  have h3 : (((List.range 63).map (fun j => p.coef (LinCol.colIY (j + 1)) *
      (LinCol.colIY (j + 1)).eval o))).sum
        = (if 1 ≤ o.rcid ∧ o.rcid < 64 then p.iy o.rcid else 0) * o.y := by
    have hc : ∀ j ∈ List.range 63,
        p.coef (LinCol.colIY (j + 1)) * (LinCol.colIY (j + 1)).eval o
          = (fun j => p.iy (j + 1) * (if o.rcid = j + 1 then 1 else 0)) j * o.y := by
      intro j _
      simp only [LinParams.coef, LinCol.eval]
      ring
    rw [lsumCongr hc, List.sum_map_mul_right, sumRangeIndShift p.iy 63 o.rcid]
  rw [h1, h2, h3]
  unfold linPred linSlopeX linSlopeY
  simp only [LinParams.coef, LinCol.eval]
  by_cases h0 : o.rcid = 0
  · have : ¬(1 ≤ o.rcid ∧ o.rcid < 64) := by omega
    simp [h0, this]
    ring
  · have : 1 ≤ o.rcid ∧ o.rcid < 64 := by omega
    simp [h0, this]
    ring

/-! ## Structure of the per-quadrant table construction -/

theorem rcCd_toLookup (px py : LinParams) (i : ℕ) :
    rcCd (toLookup px) (toLookup py) i
      = Except.ok (linSlopeX px i, linSlopeY px i, linSlopeX py i, linSlopeY py i) := by
  by_cases h : i = 0 <;>
    simp [rcCd, toLookup, LinParams.coef, linSlopeX, linSlopeY, h]

theorem rcEntry_toLookup (px py : LinParams) (i : ℕ) :
    rcEntry (toLookup px) (toLookup py) i =
      if linSlopeX px i * linSlopeY py i - linSlopeY px i * linSlopeX py i = 0 then
        Except.error RcError.singularMatrix
      else
        Except.ok
          { cd11 := linSlopeX px i, cd12 := linSlopeY px i,
            cd21 := linSlopeX py i, cd22 := linSlopeY py i,
            crpix1 := (linSlopeY py i * (-(px.lvl i)) - linSlopeY px i * (-(py.lvl i))) /
              (linSlopeX px i * linSlopeY py i - linSlopeY px i * linSlopeX py i),
            crpix2 := (-(linSlopeX py i) * (-(px.lvl i)) + linSlopeX px i * (-(py.lvl i))) /
              (linSlopeX px i * linSlopeY py i - linSlopeY px i * linSlopeX py i) } := by
  unfold rcEntry
  rw [rcCd_toLookup]
  by_cases h : linSlopeX px i * linSlopeY py i - linSlopeY px i * linSlopeX py i = 0
  · simp [h, toLookup, LinParams.coef]
  · simp [h, toLookup, LinParams.coef]

theorem rcEntry_ok_elim {xp yp : LinCol → Option ℚ} {i : ℕ} {e : RcEntry}
    (he : rcEntry xp yp i = Except.ok e) :
    ∃ ox oy, xp (LinCol.colLvl i) = some ox ∧ yp (LinCol.colLvl i) = some oy ∧
      e.cd11 * e.cd22 - e.cd12 * e.cd21 ≠ 0 ∧
      e.crpix1 = (e.cd22 * (-ox) - e.cd12 * (-oy)) / (e.cd11 * e.cd22 - e.cd12 * e.cd21) ∧
      e.crpix2 = (-e.cd21 * (-ox) + e.cd11 * (-oy)) / (e.cd11 * e.cd22 - e.cd12 * e.cd21) := by
  unfold rcEntry at he
  split at he
  · cases he
  · split at he
    · cases he
    · next hd =>
        split at he
        · next ox oy hox hoy =>
            injection he with he'
            subst he'
            exact ⟨ox, oy, hox, hoy, hd, rfl, rfl⟩
        · cases he

theorem rcEntry_missing_lvl {xp yp : LinCol → Option ℚ} {i : ℕ}
    (h : xp (LinCol.colLvl i) = none) : ∀ e, rcEntry xp yp i ≠ Except.ok e := by
  intro e he
  unfold rcEntry at he
  split at he
  · cases he
  · split at he
    · cases he
    · split at he
      · next ox oy hox hoy => rw [h] at hox; cases hox
      · cases he

theorem buildTable_ok_keys (xp yp : LinCol → Option ℚ) :
    ∀ n t, buildTable xp yp n = Except.ok t → t.map Prod.fst = List.range n := by
  intro n
  induction n with
  | zero =>
      intro t ht
      unfold buildTable at ht
      injection ht with h
      subst h
      rfl
  | succ n ih =>
      intro t ht
      unfold buildTable at ht
      split at ht
      · next t' e hbt hrc =>
          injection ht with h
          subst h
          simp [List.map_append, ih t' hbt, List.range_succ]
      · cases ht
      · cases ht

theorem buildTable_ne_ok {xp yp : LinCol → Option ℚ} {i : ℕ}
    (hi : ∀ e, rcEntry xp yp i ≠ Except.ok e) :
    ∀ n, i < n → ∀ t, buildTable xp yp n ≠ Except.ok t := by
  intro n
  induction n with
  | zero => intro h; omega
  | succ n ih =>
      intro hlt t ht
      unfold buildTable at ht
      split at ht
      · next t' e hbt hrc =>
          by_cases hin : i < n
          · exact ih hin t' hbt
          · have hieq : i = n := by omega
            subst hieq
            exact hi e hrc
      · cases ht
      · cases ht

/-! ## Exact-fit solutions and evaluation of the identity fit -/

theorem exactFitLin {p : LinParams} {data : List Obs} {resp : Obs → ℚ}
    (h : ∀ o ∈ data, linPred p o = resp o) : isOLSLin p data resp := by
  intro c _
  have hz : ∀ o ∈ data, (resp o - linPred p o) * c.eval o = (fun _ => (0 : ℚ)) o := by
    intro o ho
    rw [h o ho]
    ring
  rw [lsumCongr hz, lsumZero]

theorem exactFitQuad {γ : QuadTerm → ℚ} {adata : List AObs} {resp : AObs → ℚ}
    (h : ∀ a ∈ adata, quadPred γ a = resp a) : isOLSQuad γ adata resp := by
  intro t _
  have hz : ∀ a ∈ adata, (resp a - quadPred γ a) * t.evalA a = (fun _ => (0 : ℚ)) a := by
    intro a ha
    rw [h a ha]
    ring
  rw [lsumCongr hz, lsumZero]

theorem mem_data0 {o : Obs} (ho : o ∈ data0) :
    ∃ i, i < 64 ∧
      (o = { rcid := i, x := 0, y := 0, eta := 0, nu := 0 } ∨
       o = { rcid := i, x := 1, y := 0, eta := 1, nu := 0 } ∨
       o = { rcid := i, x := 0, y := 1, eta := 0, nu := 1 }) := by
  rcases List.mem_flatMap.mp ho with ⟨i, hi, hoi⟩
  refine ⟨i, List.mem_range.mp hi, ?_⟩
  simpa [genObs] using hoi

theorem genObs_sub_data0 {i : ℕ} (hi : i < 64) {o : Obs} (ho : o ∈ genObs i) :
    o ∈ data0 :=
  List.mem_flatMap.mpr ⟨i, List.mem_range.mpr hi, ho⟩

theorem linPred_pIdX (o : Obs) : linPred pIdX o = o.x := by
  simp [linPred, linSlopeX, linSlopeY, pIdX]

theorem linPred_pIdY (o : Obs) : linPred pIdY o = o.y := by
  simp [linPred, linSlopeX, linSlopeY, pIdY]

theorem isOLSLin_pIdX_data0 : isOLSLin pIdX data0 (fun o => o.eta) := by
  apply exactFitLin
  intro o ho
  rw [linPred_pIdX]
  rcases mem_data0 ho with ⟨i, _, h | h | h⟩ <;> subst h <;> rfl

theorem isOLSLin_pIdY_data0 : isOLSLin pIdY data0 (fun o => o.nu) := by
  apply exactFitLin
  intro o ho
  rw [linPred_pIdY]
  rcases mem_data0 ho with ⟨i, _, h | h | h⟩ <;> subst h <;> rfl

theorem rcEntryId (i : ℕ) :
    rcEntry (toLookup pIdX) (toLookup pIdY) i = Except.ok idEntry := by
  rw [rcEntry_toLookup]
  simp [linSlopeX, linSlopeY, pIdX, pIdY, idEntry]

theorem buildTableId (n : ℕ) :
    buildTable (toLookup pIdX) (toLookup pIdY) n
      = Except.ok ((List.range n).map (fun i => (i, idEntry))) := by
  induction n with
  | zero => rfl
  | succ n ih =>
      unfold buildTable
      rw [ih, rcEntryId n, List.range_succ]
      simp

/-! ## Claim theorems (first batch) -/

/-- C1: for a quadrant whose fitted 2x2 transform is invertible (which is
exactly when `rcEntry` succeeds), the produced `(crpix1, crpix2)` is the
unique local pixel coordinate where the quadrant's fitted linear model
(per-quadrant offset plus 2x2 transform applied to the pixel coordinate)
evaluates to projected coordinate exactly `(0, 0)`, and it equals the
inverse transform matrix applied to the negated offset pair. -/
theorem c1_crpix_unique_zero {xp yp : LinCol → Option ℚ} {i : ℕ} {e : RcEntry}
    {ox oy : ℚ}
    (hox : xp (LinCol.colLvl i) = some ox) (hoy : yp (LinCol.colLvl i) = some oy)
    (he : rcEntry xp yp i = Except.ok e) :
    e.cd11 * e.cd22 - e.cd12 * e.cd21 ≠ 0 ∧
    (∀ u v : ℚ,
      (ox + e.cd11 * u + e.cd12 * v = 0 ∧ oy + e.cd21 * u + e.cd22 * v = 0)
        ↔ (u = e.crpix1 ∧ v = e.crpix2)) ∧
    e.crpix1 = (e.cd22 * (-ox) - e.cd12 * (-oy)) / (e.cd11 * e.cd22 - e.cd12 * e.cd21) ∧
    e.crpix2 = (-e.cd21 * (-ox) + e.cd11 * (-oy)) / (e.cd11 * e.cd22 - e.cd12 * e.cd21) := by
  obtain ⟨ox', oy', hox', hoy', hd, hc1, hc2⟩ := rcEntry_ok_elim he
  rw [hox] at hox'
  rw [hoy] at hoy'
  injection hox' with hox''
  injection hoy' with hoy''
  subst hox''
  subst hoy''
  refine ⟨hd, ?_, hc1, hc2⟩
  intro u v
  constructor
  · rintro ⟨h1, h2⟩
    constructor
    · rw [hc1, eq_div_iff hd]
      linear_combination e.cd22 * h1 - e.cd12 * h2
    · rw [hc2, eq_div_iff hd]
      linear_combination (-e.cd21) * h1 + e.cd11 * h2
  · rintro ⟨rfl, rfl⟩
    rw [hc1, hc2]
    constructor
    · field_simp
      ring
    · field_simp
      ring

/-- Witness for C1 at the identity fit on `data0`, quadrant 0. -/
theorem c1_crpix_unique_zero_witness :
    idEntry.cd11 * idEntry.cd22 - idEntry.cd12 * idEntry.cd21 ≠ 0 ∧
    (((0 : ℚ) + idEntry.cd11 * 0 + idEntry.cd12 * 0 = 0 ∧
      (0 : ℚ) + idEntry.cd21 * 0 + idEntry.cd22 * 0 = 0)
      ↔ ((0 : ℚ) = idEntry.crpix1 ∧ (0 : ℚ) = idEntry.crpix2)) := by
  obtain ⟨h1, h2, _, _⟩ :=
    @c1_crpix_unique_zero (toLookup pIdX) (toLookup pIdY) 0 idEntry 0 0
      rfl rfl (rcEntryId 0)
  exact ⟨h1, h2 0 0⟩

/-- C3 counterexample: the claim says only the second axis's quadratic
terms are swapped and every other term keeps the direct assignment, so
`PV2_1` would be the `etalin` coefficient of the second-axis regression;
the code assigns `PV2_1 = yres.params.get('nulin')` and
`PV2_2 = yres.params.get('etalin')` — the linear terms of the second axis
are swapped as well, refuting the claim at concrete coefficients. -/
theorem c3_swap_counterexample :
    (pvStart xq0 yq0).pv2_1 ≠ yq0 QuadTerm.tEtalin ∧
    (pvStart xq0 yq0).pv2_1 = yq0 QuadTerm.tNulin ∧
    (pvStart xq0 yq0).pv2_2 ≠ yq0 QuadTerm.tNulin ∧
    (pvStart xq0 yq0).pv2_2 = yq0 QuadTerm.tEtalin :=
  ⟨by decide, by decide, by decide, by decide⟩

/-- C3 (amended): the ten coefficients are extracted with the first axis
assigned directly from its regression terms, while every second-axis term
is looked up through the eta/nu name swap `swapT` — the swap applies to the
second axis's linear terms as well as its quadratic terms (`PV2_1` is the
`nulin` coefficient, `PV2_2` the `etalin` coefficient, `PV2_4` the
`nulin`-squared coefficient, `PV2_6` the `etalin`-squared coefficient), and
the cross term is fixed by the swap. -/
theorem c3_swap_amended (xq yq : QuadTerm → ℚ) :
    ((pvStart xq yq).pv1_1 = xq QuadTerm.tEtalin ∧
     (pvStart xq yq).pv1_2 = xq QuadTerm.tNulin ∧
     (pvStart xq yq).pv1_4 = xq QuadTerm.tEtalin2 ∧
     (pvStart xq yq).pv1_5 = xq QuadTerm.tCross ∧
     (pvStart xq yq).pv1_6 = xq QuadTerm.tNulin2) ∧
    ((pvStart xq yq).pv2_1 = yq (swapT QuadTerm.tEtalin) ∧
     (pvStart xq yq).pv2_2 = yq (swapT QuadTerm.tNulin) ∧
     (pvStart xq yq).pv2_4 = yq (swapT QuadTerm.tEtalin2) ∧
     (pvStart xq yq).pv2_5 = yq (swapT QuadTerm.tCross) ∧
     (pvStart xq yq).pv2_6 = yq (swapT QuadTerm.tNulin2)) :=
  ⟨⟨rfl, rfl, rfl, rfl, rfl⟩, ⟨rfl, rfl, rfl, rfl, rfl⟩⟩

/-- C4: the Global Coordinate Assembler subtracts the quadrant's pixel
origin from the local pixel coordinate and applies the quadrant's 2x2
transform, leaving the original projected coordinates unchanged. -/
theorem c4_assembler (e : RcEntry) (o : Obs) :
    (assembleObs e o).xg = o.x - e.crpix1 ∧
    (assembleObs e o).yg = o.y - e.crpix2 ∧
    (assembleObs e o).etalin = (o.x - e.crpix1) * e.cd11 + (o.y - e.crpix2) * e.cd12 ∧
    (assembleObs e o).nulin = (o.x - e.crpix1) * e.cd21 + (o.y - e.crpix2) * e.cd22 ∧
    (assembleObs e o).eta = o.eta ∧
    (assembleObs e o).nu = o.nu :=
  ⟨rfl, rfl, rfl, rfl, rfl, rfl⟩

/-- C6: when the CD matrix assembled for a quadrant is singular
(determinant exactly zero, the exact-arithmetic matrix-inversion failure
condition), the per-quadrant derivation surfaces the inversion error and
produces no affine-model entry. -/
theorem c6_singular_matrix_error {xp yp : LinCol → Option ℚ} {i : ℕ} {a b c d : ℚ}
    (hcd : rcCd xp yp i = Except.ok (a, b, c, d)) (hdet : a * d - b * c = 0) :
    rcEntry xp yp i = Except.error RcError.singularMatrix := by
  unfold rcEntry
  rw [hcd]
  simp [hdet]

/-- Witness for C6: an all-ones coefficient lookup gives the singular CD
matrix `[[1, 1], [1, 1]]` and the inversion error. -/
theorem c6_singular_matrix_error_witness :
    rcEntry (fun _ => some (1 : ℚ)) (fun _ => some 1) 0
      = Except.error RcError.singularMatrix :=
  @c6_singular_matrix_error (fun _ => some 1) (fun _ => some 1) 0 1 1 1 1 rfl (by simp)

/-- C7: the output header contains exactly the ten distortion keys
`PV1_1..PV2_6` (holding the shared distortion coefficients) and exactly the
four linear keys `CD1_1..CD2_2` (holding the selected quadrant's affine
coefficients), with the two integer image dimensions, the two fixed TPV
projection-type strings, the shared reference sky position, and the
selected quadrant's pixel origin. -/
theorem c7_header_schema (rc : RcEntry) (pv : PvStart) (v1 v2 : ℚ) :
    (outputHeader rc pv v1 v2).map Prod.fst =
      ["NAXIS", "NAXIS1", "NAXIS2", "CTYPE1", "CTYPE2", "CRVAL1", "CRVAL2",
       "CRPIX1", "CRPIX2", "CD1_1", "CD1_2", "CD2_1", "CD2_2",
       "PV1_1", "PV1_2", "PV1_4", "PV1_5", "PV1_6",
       "PV2_1", "PV2_2", "PV2_4", "PV2_5", "PV2_6"] ∧
    (outputHeader rc pv v1 v2).filter (fun kv => pvKeyList.contains kv.1) =
      [("PV1_1", HVal.flt pv.pv1_1), ("PV1_2", HVal.flt pv.pv1_2),
       ("PV1_4", HVal.flt pv.pv1_4), ("PV1_5", HVal.flt pv.pv1_5),
       ("PV1_6", HVal.flt pv.pv1_6), ("PV2_1", HVal.flt pv.pv2_1),
       ("PV2_2", HVal.flt pv.pv2_2), ("PV2_4", HVal.flt pv.pv2_4),
       ("PV2_5", HVal.flt pv.pv2_5), ("PV2_6", HVal.flt pv.pv2_6)] ∧
    (outputHeader rc pv v1 v2).filter (fun kv => cdKeyList.contains kv.1) =
      [("CD1_1", HVal.flt rc.cd11), ("CD1_2", HVal.flt rc.cd12),
       ("CD2_1", HVal.flt rc.cd21), ("CD2_2", HVal.flt rc.cd22)] ∧
    List.lookup "NAXIS1" (outputHeader rc pv v1 v2) = some (HVal.int 3072) ∧
    List.lookup "NAXIS2" (outputHeader rc pv v1 v2) = some (HVal.int 3080) ∧
    List.lookup "CTYPE1" (outputHeader rc pv v1 v2) = some (HVal.str "RA---TPV") ∧
    List.lookup "CTYPE2" (outputHeader rc pv v1 v2) = some (HVal.str "DEC--TPV") ∧
    List.lookup "CRVAL1" (outputHeader rc pv v1 v2) = some (HVal.flt v1) ∧
    List.lookup "CRVAL2" (outputHeader rc pv v1 v2) = some (HVal.flt v2) ∧
    List.lookup "CRPIX1" (outputHeader rc pv v1 v2) = some (HVal.flt rc.crpix1) ∧
    List.lookup "CRPIX2" (outputHeader rc pv v1 v2) = some (HVal.flt rc.crpix2) :=
  ⟨rfl, rfl, rfl, rfl, rfl, rfl, rfl, rfl, rfl, rfl, rfl⟩

/-- C8: header writing is deterministic (a pure function of the header
cards) and idempotent — writing twice with identical inputs leaves the file
system exactly as one write does, the write overwriting the target path
with the serialized text. -/
theorem c8_write_idempotent (cards : List (String × HVal)) (path : String) (fs : FileSys) :
    totextfileM cards path (totextfileM cards path fs) = totextfileM cards path fs ∧
    totextfileM cards path fs path = some (serializeHeader cards) := by
  constructor
  · funext p
    unfold totextfileM writeTextFile
    by_cases h : p = path <;> simp [h]
  · unfold totextfileM writeTextFile
    simp

/-- C9: the quadratic distortion model contains an implicit constant
(intercept) basis term which genuinely participates in the fitted model
(changing its coefficient shifts every prediction by that constant), yet
the intercept is discarded: the ten extracted coefficients do not depend on
it, and the header carries no constant-term key (`PV1_0`/`PV2_0`). -/
theorem c9_intercept_discarded (a : AObs) (xq yq : QuadTerm → ℚ) (c c' : ℚ)
    (rc : RcEntry) (pv : PvStart) (v1 v2 : ℚ) :
    (QuadTerm.tIntercept ∈ quadTerms ∧ QuadTerm.evalA QuadTerm.tIntercept a = 1) ∧
    quadPred (updQ xq QuadTerm.tIntercept c) a - quadPred xq a
      = c - xq QuadTerm.tIntercept ∧
    pvStart (updQ xq QuadTerm.tIntercept c) (updQ yq QuadTerm.tIntercept c')
      = pvStart xq yq ∧
    ("PV1_0" ∉ (outputHeader rc pv v1 v2).map Prod.fst ∧
     "PV2_0" ∉ (outputHeader rc pv v1 v2).map Prod.fst) := by
  refine ⟨⟨by decide, rfl⟩, ?_, rfl, by simp [outputHeader], by simp [outputHeader]⟩
  unfold quadPred quadTerms updQ
  simp [QuadTerm.evalA]

/-! ## Uniqueness of the pooled ordinary-least-squares fit -/

theorem predDiff_cols (p q : LinParams) (o : Obs) (h : o.rcid < 64) :
    linPred p o - linPred q o
      = (linCols.map (fun c => (p.coef c - q.coef c) * c.eval o)).sum := by
  rw [← colPred_eq_linPred p o h, ← colPred_eq_linPred q o h]
  unfold colPred
  rw [← lsumSub]
  exact (lsumCongr (by intro c _; ring)).symm

theorem olsDiff_orth {p q : LinParams} {data : List Obs} {resp : Obs → ℚ}
    (hp : isOLSLin p data resp) (hq : isOLSLin q data resp) :
    ∀ c ∈ linCols,
      (data.map (fun o => (linPred p o - linPred q o) * c.eval o)).sum = 0 := by
  intro c hc
  have hrw : ∀ o ∈ data, (linPred p o - linPred q o) * c.eval o
      = (resp o - linPred q o) * c.eval o - (resp o - linPred p o) * c.eval o := by
    intro o _
    ring
  rw [lsumCongr hrw, lsumSub, hp c hc, hq c hc]
  ring

theorem olsSamePred {p q : LinParams} {data : List Obs} {resp : Obs → ℚ}
    (hval : ∀ o ∈ data, o.rcid < 64)
    (hp : isOLSLin p data resp) (hq : isOLSLin q data resp) :
    ∀ o ∈ data, linPred p o = linPred q o := by
  have hsq : (data.map (fun o =>
      (linPred p o - linPred q o) * (linPred p o - linPred q o))).sum = 0 := by
    have hexp : ∀ o ∈ data,
        (linPred p o - linPred q o) * (linPred p o - linPred q o)
          = (linCols.map (fun c =>
              (p.coef c - q.coef c) * c.eval o * (linPred p o - linPred q o))).sum := by
      intro o ho
      rw [show (linPred p o - linPred q o) * (linPred p o - linPred q o)
          = ((linCols.map (fun c => (p.coef c - q.coef c) * c.eval o)).sum)
              * (linPred p o - linPred q o) from by
            rw [← predDiff_cols p q o (hval o ho)]]
      rw [← List.sum_map_mul_right]
    rw [lsumCongr hexp, lsumSwap]
    have hcol : ∀ c ∈ linCols,
        (data.map (fun o =>
          (p.coef c - q.coef c) * c.eval o * (linPred p o - linPred q o))).sum = 0 := by
      intro c hc
      have hr2 : ∀ o ∈ data,
          (p.coef c - q.coef c) * c.eval o * (linPred p o - linPred q o)
            = (p.coef c - q.coef c) * ((linPred p o - linPred q o) * c.eval o) := by
        intro o _
        ring
      rw [lsumCongr hr2, List.sum_map_mul_left, olsDiff_orth hp hq c hc, mul_zero]
    rw [lsumCongr hcol, lsumZero]
  intro o ho
  have hz := lsumNonnegZero (by intro a _; exact mul_self_nonneg _) hsq o ho
  have hz0 := mul_self_eq_zero.mp hz
  linarith [hz0]

theorem encode_slopeX (s t b : ℕ → ℚ) (i : ℕ) :
    linSlopeX (encodeLin s t b) i = s i := by
  unfold linSlopeX encodeLin
  by_cases h : i = 0
  · subst h
    simp
  · simp [h]

theorem encode_slopeY (s t b : ℕ → ℚ) (i : ℕ) :
    linSlopeY (encodeLin s t b) i = t i := by
  unfold linSlopeY encodeLin
  by_cases h : i = 0
  · subst h
    simp
  · simp [h]

theorem encode_pred (s t b : ℕ → ℚ) (o : Obs) :
    linPred (encodeLin s t b) o = b o.rcid + s o.rcid * o.x + t o.rcid * o.y := by
  unfold linPred
  rw [encode_slopeX, encode_slopeY]
  rfl

theorem affineZero {av bv cv x1 y1 x2 y2 x3 y3 : ℚ}
    (hnc : (x2 - x1) * (y3 - y1) - (x3 - x1) * (y2 - y1) ≠ 0)
    (h1 : av + bv * x1 + cv * y1 = 0)
    (h2 : av + bv * x2 + cv * y2 = 0)
    (h3 : av + bv * x3 + cv * y3 = 0) : bv = 0 ∧ cv = 0 ∧ av = 0 := by
  have hb : bv * ((x2 - x1) * (y3 - y1) - (x3 - x1) * (y2 - y1)) = 0 := by
    linear_combination (y3 - y1) * h2 - (y3 - y1) * h1 - (y2 - y1) * h3 + (y2 - y1) * h1
  have hc : cv * ((x2 - x1) * (y3 - y1) - (x3 - x1) * (y2 - y1)) = 0 := by
    linear_combination (x2 - x1) * h3 - (x2 - x1) * h1 - (x3 - x1) * h2 + (x3 - x1) * h1
  have hb0 : bv = 0 := by
    rcases mul_eq_zero.mp hb with h | h
    · exact h
    · exact absurd h hnc
  have hc0 : cv = 0 := by
    rcases mul_eq_zero.mp hc with h | h
    · exact h
    · exact absurd h hnc
  refine ⟨hb0, hc0, ?_⟩
  rw [hb0, hc0] at h1
  simpa using h1

theorem axisAgree {p : LinParams} {s t b : ℕ → ℚ} {data : List Obs}
    {o1 o2 o3 : Obs} {i : ℕ}
    (hsame : ∀ o ∈ data, linPred p o = linPred (encodeLin s t b) o)
    (h1 : o1 ∈ data) (h2 : o2 ∈ data) (h3 : o3 ∈ data)
    (hr1 : o1.rcid = i) (hr2 : o2.rcid = i) (hr3 : o3.rcid = i)
    (hnc : (o2.x - o1.x) * (o3.y - o1.y) - (o3.x - o1.x) * (o2.y - o1.y) ≠ 0) :
    linSlopeX p i = s i ∧ linSlopeY p i = t i ∧ p.lvl i = b i := by
  have e1 := hsame o1 h1
  have e2 := hsame o2 h2
  have e3 := hsame o3 h3
  rw [encode_pred] at e1 e2 e3
  unfold linPred at e1 e2 e3
  rw [hr1] at e1
  rw [hr2] at e2
  rw [hr3] at e3
  have h1' : (p.lvl i - b i) + (linSlopeX p i - s i) * o1.x
      + (linSlopeY p i - t i) * o1.y = 0 := by
    linear_combination e1
  have h2' : (p.lvl i - b i) + (linSlopeX p i - s i) * o2.x
      + (linSlopeY p i - t i) * o2.y = 0 := by
    linear_combination e2
  have h3' : (p.lvl i - b i) + (linSlopeX p i - s i) * o3.x
      + (linSlopeY p i - t i) * o3.y = 0 := by
    linear_combination e3
  obtain ⟨hbz, hcz, haz⟩ := affineZero hnc h1' h2' h3'
  refine ⟨by linarith, by linarith, by linarith⟩

theorem linRecovery
    (data : List Obs) (A11 A12 A21 A22 b1 b2 : ℕ → ℚ) (w1 w2 w3 : ℕ → Obs)
    (px py : LinParams)
    (hval : ∀ o ∈ data, o.rcid < 64)
    (hgen : ∀ o ∈ data,
      o.eta = b1 o.rcid + A11 o.rcid * o.x + A12 o.rcid * o.y ∧
      o.nu = b2 o.rcid + A21 o.rcid * o.x + A22 o.rcid * o.y)
    (hw : ∀ i, i < 64 →
      w1 i ∈ data ∧ w2 i ∈ data ∧ w3 i ∈ data ∧
      (w1 i).rcid = i ∧ (w2 i).rcid = i ∧ (w3 i).rcid = i ∧
      ((w2 i).x - (w1 i).x) * ((w3 i).y - (w1 i).y)
        - ((w3 i).x - (w1 i).x) * ((w2 i).y - (w1 i).y) ≠ 0)
    (hdet : ∀ i, i < 64 → A11 i * A22 i - A12 i * A21 i ≠ 0)
    (hx : isOLSLin px data (fun o => o.eta))
    (hy : isOLSLin py data (fun o => o.nu)) :
    ∀ i, i < 64 →
      rcEntry (toLookup px) (toLookup py) i = Except.ok
        { cd11 := A11 i, cd12 := A12 i, cd21 := A21 i, cd22 := A22 i,
          crpix1 := (A22 i * (-(b1 i)) - A12 i * (-(b2 i)))
            / (A11 i * A22 i - A12 i * A21 i),
          crpix2 := (-(A21 i) * (-(b1 i)) + A11 i * (-(b2 i)))
            / (A11 i * A22 i - A12 i * A21 i) } := by
  intro i hi
  have hxStar : isOLSLin (encodeLin A11 A12 b1) data (fun o => o.eta) := by
    apply exactFitLin
    intro o ho
    rw [encode_pred]
    exact ((hgen o ho).1).symm
  have hyStar : isOLSLin (encodeLin A21 A22 b2) data (fun o => o.nu) := by
    apply exactFitLin
    intro o ho
    rw [encode_pred]
    exact ((hgen o ho).2).symm
  have hsx := olsSamePred hval hx hxStar
  have hsy := olsSamePred hval hy hyStar
  obtain ⟨m1, m2, m3, r1, r2, r3, hnc⟩ := hw i hi
  obtain ⟨hx1, hx2, hx3⟩ := axisAgree hsx m1 m2 m3 r1 r2 r3 hnc
  obtain ⟨hy1, hy2, hy3⟩ := axisAgree hsy m1 m2 m3 r1 r2 r3 hnc
  rw [rcEntry_toLookup, hx1, hx2, hy1, hy2, hx3, hy3, if_neg (hdet i hi)]

/-! ## Concrete hypothesis discharges for the synthetic dataset -/

theorem hval_data0 : ∀ o ∈ data0, o.rcid < 64 := by
  intro o ho
  rcases mem_data0 ho with ⟨i, hi, h | h | h⟩ <;> subst h <;> exact hi

theorem hgen_data0 : ∀ o ∈ data0,
    o.eta = 0 + 1 * o.x + 0 * o.y ∧ o.nu = 0 + 0 * o.x + 1 * o.y := by
  intro o ho
  rcases mem_data0 ho with ⟨i, _, h | h | h⟩ <;> subst h <;> constructor <;> norm_num

theorem hw_data0 : ∀ i, i < 64 →
    ({ rcid := i, x := 0, y := 0, eta := 0, nu := 0 } : Obs) ∈ data0 ∧
    ({ rcid := i, x := 1, y := 0, eta := 1, nu := 0 } : Obs) ∈ data0 ∧
    ({ rcid := i, x := 0, y := 1, eta := 0, nu := 1 } : Obs) ∈ data0 ∧
    ({ rcid := i, x := 0, y := 0, eta := 0, nu := 0 } : Obs).rcid = i ∧
    ({ rcid := i, x := 1, y := 0, eta := 1, nu := 0 } : Obs).rcid = i ∧
    ({ rcid := i, x := 0, y := 1, eta := 0, nu := 1 } : Obs).rcid = i ∧
    (({ rcid := i, x := 1, y := 0, eta := 1, nu := 0 } : Obs).x
        - ({ rcid := i, x := 0, y := 0, eta := 0, nu := 0 } : Obs).x)
      * (({ rcid := i, x := 0, y := 1, eta := 0, nu := 1 } : Obs).y
        - ({ rcid := i, x := 0, y := 0, eta := 0, nu := 0 } : Obs).y)
    - (({ rcid := i, x := 0, y := 1, eta := 0, nu := 1 } : Obs).x
        - ({ rcid := i, x := 0, y := 0, eta := 0, nu := 0 } : Obs).x)
      * (({ rcid := i, x := 1, y := 0, eta := 1, nu := 0 } : Obs).y
        - ({ rcid := i, x := 0, y := 0, eta := 0, nu := 0 } : Obs).y) ≠ 0 := by
  intro i hi
  refine ⟨genObs_sub_data0 hi (by simp [genObs]), genObs_sub_data0 hi (by simp [genObs]),
    genObs_sub_data0 hi (by simp [genObs]), rfl, rfl, rfl, by norm_num⟩

/-! ## Claim C5 -/

/-- C5: on any noiseless dataset over the 64 quadrants generated exactly by
a known per-quadrant 2x2 transform plus offset, with three non-collinear
stars in each quadrant and the known transforms invertible, every solution
of the pooled ordinary-least-squares normal equations reproduces, for every
quadrant, exactly the known transform in the derived affine-model entry,
with pixel origin exactly the known model's zero-point (exact arithmetic in
`ℚ` standing for the numerical-tolerance statement). -/
theorem c5_affine_recovery
    (data : List Obs) (A11 A12 A21 A22 b1 b2 : ℕ → ℚ) (w1 w2 w3 : ℕ → Obs)
    (px py : LinParams)
    (hval : ∀ o ∈ data, o.rcid < 64)
    (hgen : ∀ o ∈ data,
      o.eta = b1 o.rcid + A11 o.rcid * o.x + A12 o.rcid * o.y ∧
      o.nu = b2 o.rcid + A21 o.rcid * o.x + A22 o.rcid * o.y)
    (hw : ∀ i, i < 64 →
      w1 i ∈ data ∧ w2 i ∈ data ∧ w3 i ∈ data ∧
      (w1 i).rcid = i ∧ (w2 i).rcid = i ∧ (w3 i).rcid = i ∧
      ((w2 i).x - (w1 i).x) * ((w3 i).y - (w1 i).y)
        - ((w3 i).x - (w1 i).x) * ((w2 i).y - (w1 i).y) ≠ 0)
    (hdet : ∀ i, i < 64 → A11 i * A22 i - A12 i * A21 i ≠ 0)
    (hx : isOLSLin px data (fun o => o.eta))
    (hy : isOLSLin py data (fun o => o.nu)) :
    ∀ i, i < 64 →
      rcEntry (toLookup px) (toLookup py) i = Except.ok
        { cd11 := A11 i, cd12 := A12 i, cd21 := A21 i, cd22 := A22 i,
          crpix1 := (A22 i * (-(b1 i)) - A12 i * (-(b2 i)))
            / (A11 i * A22 i - A12 i * A21 i),
          crpix2 := (-(A21 i) * (-(b1 i)) + A11 i * (-(b2 i)))
            / (A11 i * A22 i - A12 i * A21 i) } :=
  linRecovery data A11 A12 A21 A22 b1 b2 w1 w2 w3 px py hval hgen hw hdet hx hy

/-- Witness for C5: the identity generator on `data0` with the exact-fit
solutions, evaluated at quadrant 5. -/
theorem c5_affine_recovery_witness :
    rcEntry (toLookup pIdX) (toLookup pIdY) 5 = Except.ok idEntry := by
  have h := c5_affine_recovery data0 (fun _ => 1) (fun _ => 0) (fun _ => 0) (fun _ => 1)
      (fun _ => 0) (fun _ => 0)
      (fun i => { rcid := i, x := 0, y := 0, eta := 0, nu := 0 })
      (fun i => { rcid := i, x := 1, y := 0, eta := 1, nu := 0 })
      (fun i => { rcid := i, x := 0, y := 1, eta := 0, nu := 1 })
      pIdX pIdY hval_data0 hgen_data0 hw_data0
      (by intro i _; norm_num) isOLSLin_pIdX_data0 isOLSLin_pIdY_data0 5 (by decide)
  rw [h]
  norm_num [idEntry]

/-! ## Behaviour of the pipeline under a uniform projection rescaling -/

theorem linSlopeX_smul (s : ℚ) (p : LinParams) (i : ℕ) :
    linSlopeX (smulLin s p) i = s * linSlopeX p i := by
  unfold linSlopeX smulLin
  by_cases h : i = 0
  · simp [h]
  · simp [h]
    ring

theorem linSlopeY_smul (s : ℚ) (p : LinParams) (i : ℕ) :
    linSlopeY (smulLin s p) i = s * linSlopeY p i := by
  unfold linSlopeY smulLin
  by_cases h : i = 0
  · simp [h]
  · simp [h]
    ring

theorem linPred_smul (s : ℚ) (p : LinParams) (o : Obs) :
    linPred (smulLin s p) o = s * linPred p o := by
  unfold linPred
  rw [linSlopeX_smul, linSlopeY_smul]
  show s * p.lvl o.rcid + _ + _ = _
  ring

theorem colEval_scaleObs (c : LinCol) (s : ℚ) (o : Obs) :
    c.eval (scaleObs s o) = c.eval o := by
  cases c <;> rfl

theorem isOLSLin_smul {s : ℚ} {p : LinParams} {data : List Obs} {resp : Obs → ℚ}
    (hresp : ∀ o, resp (scaleObs s o) = s * resp o)
    (hp : isOLSLin p data resp) : isOLSLin (smulLin s p) (scaleData s data) resp := by
  intro c hc
  unfold scaleData
  rw [List.map_map]
  have hpt : ∀ o ∈ data,
      ((fun o => (resp o - linPred (smulLin s p) o) * c.eval o) ∘ scaleObs s) o
        = s * ((resp o - linPred p o) * c.eval o) := by
    intro o _
    simp only [Function.comp_apply]
    rw [hresp, colEval_scaleObs,
      show linPred (smulLin s p) (scaleObs s o) = linPred (smulLin s p) o from rfl,
      linPred_smul]
    ring
  rw [lsumCongr hpt, List.sum_map_mul_left, hp c hc, mul_zero]

theorem rcEntry_smul (px py : LinParams) (i : ℕ) {s : ℚ} (hs : s ≠ 0) :
    rcEntry (toLookup (smulLin s px)) (toLookup (smulLin s py)) i
      = (rcEntry (toLookup px) (toLookup py) i).map (scaleEntry s) := by
  rw [rcEntry_toLookup, rcEntry_toLookup, linSlopeX_smul, linSlopeX_smul,
    linSlopeY_smul, linSlopeY_smul]
  by_cases hd : linSlopeX px i * linSlopeY py i - linSlopeY px i * linSlopeX py i = 0
  · rw [if_pos hd, if_pos (by linear_combination (s * s) * hd)]
    rfl
  · have hd2 : s * linSlopeX px i * (s * linSlopeY py i)
        - s * linSlopeY px i * (s * linSlopeX py i) ≠ 0 := by
      intro hcon
      apply hd
      have hss : s * s ≠ 0 := mul_ne_zero hs hs
      have : s * s * (linSlopeX px i * linSlopeY py i
          - linSlopeY px i * linSlopeX py i) = 0 := by linear_combination hcon
      exact (mul_eq_zero.mp this).resolve_left hss
    rw [if_neg hd, if_neg hd2]
    have hlvl : ∀ q : LinParams, (smulLin s q).lvl i = s * q.lvl i := fun q => rfl
    simp only [Except.map, scaleEntry, hlvl, Except.ok.injEq, RcEntry.mk.injEq]
    refine ⟨by trivial, by trivial, by trivial, by trivial, ?_, ?_⟩
    · field_simp
      ring
    · field_simp
      ring

/-! ## The quadratic stage under rescaling -/

theorem quadPred_scale {s : ℚ} (hs : s ≠ 0) (γ : QuadTerm → ℚ) (a : AObs) :
    quadPred (scaleQuad s γ) (scaleAObs s a) = s * quadPred γ a := by
  simp only [quadPred, quadTerms, scaleQuad, scaleAObs, QuadTerm.evalA,
    List.map_cons, List.map_nil, List.sum_cons, List.sum_nil]
  field_simp
  ring

theorem assembleObs_scale (s : ℚ) (e : RcEntry) (o : Obs) :
    assembleObs (scaleEntry s e) (scaleObs s o) = scaleAObs s (assembleObs e o) := by
  simp only [assembleObs, scaleEntry, scaleObs, scaleAObs, AObs.mk.injEq]
  refine ⟨by trivial, by trivial, by ring, by ring, by trivial, by trivial⟩

theorem assembleData_scale (s : ℚ) (tbl : ℕ → RcEntry) (data : List Obs) :
    assembleData (fun j => scaleEntry s (tbl j)) (scaleData s data)
      = (assembleData tbl data).map (scaleAObs s) := by
  unfold assembleData scaleData
  rw [List.map_map, List.map_map]
  apply List.map_congr_left
  intro o _
  simp only [Function.comp_apply]
  exact assembleObs_scale s (tbl o.rcid) o

theorem isOLSQuad_scale {s : ℚ} (hs : s ≠ 0) {γ : QuadTerm → ℚ} {adata : List AObs}
    {resp : AObs → ℚ} (hresp : ∀ a, resp (scaleAObs s a) = s * resp a)
    (hq : isOLSQuad γ adata resp) :
    isOLSQuad (scaleQuad s γ) (adata.map (scaleAObs s)) resp := by
  intro t ht
  rw [List.map_map]
  fin_cases ht
  · have hpt : ∀ a ∈ adata,
        ((fun a => (resp a - quadPred (scaleQuad s γ) a)
          * QuadTerm.evalA QuadTerm.tIntercept a) ∘ scaleAObs s) a
          = s * ((resp a - quadPred γ a) * QuadTerm.evalA QuadTerm.tIntercept a) := by
      intro a _
      simp only [Function.comp_apply, QuadTerm.evalA]
      rw [hresp, quadPred_scale hs]
      ring
    rw [lsumCongr hpt, List.sum_map_mul_left, hq QuadTerm.tIntercept (by decide), mul_zero]
  · have hpt : ∀ a ∈ adata,
        ((fun a => (resp a - quadPred (scaleQuad s γ) a)
          * QuadTerm.evalA QuadTerm.tEtalin2 a) ∘ scaleAObs s) a
          = s * s * s * ((resp a - quadPred γ a) * QuadTerm.evalA QuadTerm.tEtalin2 a) := by
      intro a _
      simp only [Function.comp_apply, QuadTerm.evalA]
      rw [hresp, quadPred_scale hs]
      simp only [scaleAObs]
      ring
    rw [lsumCongr hpt, List.sum_map_mul_left, hq QuadTerm.tEtalin2 (by decide), mul_zero]
  · have hpt : ∀ a ∈ adata,
        ((fun a => (resp a - quadPred (scaleQuad s γ) a)
          * QuadTerm.evalA QuadTerm.tNulin2 a) ∘ scaleAObs s) a
          = s * s * s * ((resp a - quadPred γ a) * QuadTerm.evalA QuadTerm.tNulin2 a) := by
      intro a _
      simp only [Function.comp_apply, QuadTerm.evalA]
      rw [hresp, quadPred_scale hs]
      simp only [scaleAObs]
      ring
    rw [lsumCongr hpt, List.sum_map_mul_left, hq QuadTerm.tNulin2 (by decide), mul_zero]
  · have hpt : ∀ a ∈ adata,
        ((fun a => (resp a - quadPred (scaleQuad s γ) a)
          * QuadTerm.evalA QuadTerm.tEtalin a) ∘ scaleAObs s) a
          = s * s * ((resp a - quadPred γ a) * QuadTerm.evalA QuadTerm.tEtalin a) := by
      intro a _
      simp only [Function.comp_apply, QuadTerm.evalA]
      rw [hresp, quadPred_scale hs]
      simp only [scaleAObs]
      ring
    rw [lsumCongr hpt, List.sum_map_mul_left, hq QuadTerm.tEtalin (by decide), mul_zero]
  · have hpt : ∀ a ∈ adata,
        ((fun a => (resp a - quadPred (scaleQuad s γ) a)
          * QuadTerm.evalA QuadTerm.tNulin a) ∘ scaleAObs s) a
          = s * s * ((resp a - quadPred γ a) * QuadTerm.evalA QuadTerm.tNulin a) := by
      intro a _
      simp only [Function.comp_apply, QuadTerm.evalA]
      rw [hresp, quadPred_scale hs]
      simp only [scaleAObs]
      ring
    rw [lsumCongr hpt, List.sum_map_mul_left, hq QuadTerm.tNulin (by decide), mul_zero]
  · have hpt : ∀ a ∈ adata,
        ((fun a => (resp a - quadPred (scaleQuad s γ) a)
          * QuadTerm.evalA QuadTerm.tCross a) ∘ scaleAObs s) a
          = s * s * s * ((resp a - quadPred γ a) * QuadTerm.evalA QuadTerm.tCross a) := by
      intro a _
      simp only [Function.comp_apply, QuadTerm.evalA]
      rw [hresp, quadPred_scale hs]
      simp only [scaleAObs]
      ring
    rw [lsumCongr hpt, List.sum_map_mul_left, hq QuadTerm.tCross (by decide), mul_zero]

theorem quadPred_gEta (a : AObs) : quadPred gEta a = a.etalin := by
  simp [quadPred, quadTerms, gEta, QuadTerm.evalA]

theorem quadPred_gNu (a : AObs) : quadPred gNu a = a.nulin := by
  simp [quadPred, quadTerms, gNu, QuadTerm.evalA]

theorem assembleObs_idEntry (o : Obs) :
    assembleObs idEntry o
      = { xg := o.x, yg := o.y, etalin := o.x, nulin := o.y,
          eta := o.eta, nu := o.nu } := by
  simp [assembleObs, idEntry, AObs.mk.injEq]

theorem isOLSQuad_gEta :
    isOLSQuad gEta (assembleData idTable data0) (fun a => a.eta) := by
  apply exactFitQuad
  intro a ha
  rw [quadPred_gEta]
  rcases List.mem_map.mp ha with ⟨o, ho, rfl⟩
  simp only [idTable, assembleObs_idEntry]
  rcases mem_data0 ho with ⟨i, _, h | h | h⟩ <;> subst h <;> rfl

theorem isOLSQuad_gNu :
    isOLSQuad gNu (assembleData idTable data0) (fun a => a.nu) := by
  apply exactFitQuad
  intro a ha
  rw [quadPred_gNu]
  rcases List.mem_map.mp ha with ⟨o, ho, rfl⟩
  simp only [idTable, assembleObs_idEntry]
  rcases mem_data0 ho with ⟨i, _, h | h | h⟩ <;> subst h <;> rfl

theorem hval_sdata : ∀ o ∈ scaleData 2 data0, o.rcid < 64 := by
  intro o ho
  rcases List.mem_map.mp ho with ⟨o0, ho0, rfl⟩
  exact hval_data0 o0 ho0

theorem hgen_sdata : ∀ o ∈ scaleData 2 data0,
    o.eta = 0 + 2 * o.x + 0 * o.y ∧ o.nu = 0 + 0 * o.x + 2 * o.y := by
  intro o ho
  rcases List.mem_map.mp ho with ⟨o0, ho0, rfl⟩
  rcases mem_data0 ho0 with ⟨i, _, h | h | h⟩ <;> subst h <;>
    constructor <;> norm_num [scaleObs]

theorem hw_sdata : ∀ i, i < 64 →
    scaleObs 2 ({ rcid := i, x := 0, y := 0, eta := 0, nu := 0 } : Obs)
        ∈ scaleData 2 data0 ∧
    scaleObs 2 ({ rcid := i, x := 1, y := 0, eta := 1, nu := 0 } : Obs)
        ∈ scaleData 2 data0 ∧
    scaleObs 2 ({ rcid := i, x := 0, y := 1, eta := 0, nu := 1 } : Obs)
        ∈ scaleData 2 data0 ∧
    (scaleObs 2 ({ rcid := i, x := 0, y := 0, eta := 0, nu := 0 } : Obs)).rcid = i ∧
    (scaleObs 2 ({ rcid := i, x := 1, y := 0, eta := 1, nu := 0 } : Obs)).rcid = i ∧
    (scaleObs 2 ({ rcid := i, x := 0, y := 1, eta := 0, nu := 1 } : Obs)).rcid = i ∧
    ((scaleObs 2 ({ rcid := i, x := 1, y := 0, eta := 1, nu := 0 } : Obs)).x
        - (scaleObs 2 ({ rcid := i, x := 0, y := 0, eta := 0, nu := 0 } : Obs)).x)
      * ((scaleObs 2 ({ rcid := i, x := 0, y := 1, eta := 0, nu := 1 } : Obs)).y
        - (scaleObs 2 ({ rcid := i, x := 0, y := 0, eta := 0, nu := 0 } : Obs)).y)
    - ((scaleObs 2 ({ rcid := i, x := 0, y := 1, eta := 0, nu := 1 } : Obs)).x
        - (scaleObs 2 ({ rcid := i, x := 0, y := 0, eta := 0, nu := 0 } : Obs)).x)
      * ((scaleObs 2 ({ rcid := i, x := 1, y := 0, eta := 1, nu := 0 } : Obs)).y
        - (scaleObs 2 ({ rcid := i, x := 0, y := 0, eta := 0, nu := 0 } : Obs)).y)
      ≠ 0 := by
  intro i hi
  obtain ⟨m1, m2, m3, _, _, _, _⟩ := hw_data0 i hi
  exact ⟨List.mem_map.mpr ⟨_, m1, rfl⟩, List.mem_map.mpr ⟨_, m2, rfl⟩,
    List.mem_map.mpr ⟨_, m3, rfl⟩, rfl, rfl, rfl, by norm_num [scaleObs]⟩

/-! ## Claim C2 -/

/-- C2 counterexample: uniformly scaling every observation's projected
coordinates by `s = 2` changes the produced per-quadrant affine models.
On the synthetic dataset `data0`, every pooled OLS solution yields the
affine-model entry `idEntry` (`cd11 = 1`), while on the identically
pixel-positioned dataset with `(eta, nu)` doubled every OLS solution
yields `scaleEntry 2 idEntry` (`cd11 = 2`), a different entry — so the
claim that the affine models are unchanged under the scale is false (only
`crpix`, not the CD coefficients, is invariant). -/
theorem c2_scale_counterexample :
    (isOLSLin pIdX data0 (fun o => o.eta) ∧ isOLSLin pIdY data0 (fun o => o.nu)) ∧
    (∀ px py : LinParams,
        isOLSLin px data0 (fun o => o.eta) → isOLSLin py data0 (fun o => o.nu) →
        rcEntry (toLookup px) (toLookup py) 0 = Except.ok idEntry) ∧
    (isOLSLin (smulLin 2 pIdX) (scaleData 2 data0) (fun o => o.eta) ∧
     isOLSLin (smulLin 2 pIdY) (scaleData 2 data0) (fun o => o.nu)) ∧
    (∀ px py : LinParams,
        isOLSLin px (scaleData 2 data0) (fun o => o.eta) →
        isOLSLin py (scaleData 2 data0) (fun o => o.nu) →
        rcEntry (toLookup px) (toLookup py) 0 = Except.ok (scaleEntry 2 idEntry)) ∧
    scaleEntry 2 idEntry ≠ idEntry := by
  refine ⟨⟨isOLSLin_pIdX_data0, isOLSLin_pIdY_data0⟩, ?_,
    ⟨isOLSLin_smul (fun o => rfl) isOLSLin_pIdX_data0,
     isOLSLin_smul (fun o => rfl) isOLSLin_pIdY_data0⟩, ?_, ?_⟩
  · intro px py hx hy
    have h := linRecovery data0 (fun _ => 1) (fun _ => 0) (fun _ => 0) (fun _ => 1)
        (fun _ => 0) (fun _ => 0)
        (fun i => { rcid := i, x := 0, y := 0, eta := 0, nu := 0 })
        (fun i => { rcid := i, x := 1, y := 0, eta := 1, nu := 0 })
        (fun i => { rcid := i, x := 0, y := 1, eta := 0, nu := 1 })
        px py hval_data0 hgen_data0 hw_data0 (by intro i _; norm_num) hx hy 0
        (by norm_num)
    rw [h]
    simp [idEntry]
  · intro px py hx hy
    have h := linRecovery (scaleData 2 data0) (fun _ => 2) (fun _ => 0) (fun _ => 0)
        (fun _ => 2) (fun _ => 0) (fun _ => 0)
        (fun i => scaleObs 2 { rcid := i, x := 0, y := 0, eta := 0, nu := 0 })
        (fun i => scaleObs 2 { rcid := i, x := 1, y := 0, eta := 1, nu := 0 })
        (fun i => scaleObs 2 { rcid := i, x := 0, y := 1, eta := 0, nu := 1 })
        px py hval_sdata hgen_sdata hw_sdata (by intro i _; norm_num) hx hy 0
        (by norm_num)
    rw [h]
    simp [scaleEntry, idEntry]
  · intro hcon
    have h := congrArg RcEntry.cd11 hcon
    norm_num [scaleEntry, idEntry] at h

/-- C2 (amended): under a uniform nonzero rescaling `s` of every
observation's projected coordinates, OLS solutions transform by `smulLin s`
(linear stage) and `scaleQuad s` (quadratic stage); the derived pixel
origins `(crpix1, crpix2)` and the linear distortion coefficients
`PV1_1, PV1_2, PV2_1, PV2_2` are unchanged — the scale cancels there — but
the CD coefficients scale by `s` and the quadratic/cross distortion
coefficients by `1/s`, so the full coefficient sets are not literally
unchanged as the claim states. -/
theorem c2_scale_amended (s : ℚ) (data : List Obs) (px py : LinParams)
    (tbl : ℕ → RcEntry) (γx γy : QuadTerm → ℚ)
    (hs : s ≠ 0)
    (hx : isOLSLin px data (fun o => o.eta))
    (hy : isOLSLin py data (fun o => o.nu))
    (hqx : isOLSQuad γx (assembleData tbl data) (fun a => a.eta))
    (hqy : isOLSQuad γy (assembleData tbl data) (fun a => a.nu)) :
    (isOLSLin (smulLin s px) (scaleData s data) (fun o => o.eta) ∧
     isOLSLin (smulLin s py) (scaleData s data) (fun o => o.nu)) ∧
    (∀ i, rcEntry (toLookup (smulLin s px)) (toLookup (smulLin s py)) i
        = (rcEntry (toLookup px) (toLookup py) i).map (scaleEntry s)) ∧
    (∀ e : RcEntry,
      (scaleEntry s e).crpix1 = e.crpix1 ∧ (scaleEntry s e).crpix2 = e.crpix2) ∧
    (isOLSQuad (scaleQuad s γx)
        (assembleData (fun j => scaleEntry s (tbl j)) (scaleData s data))
        (fun a => a.eta) ∧
     isOLSQuad (scaleQuad s γy)
        (assembleData (fun j => scaleEntry s (tbl j)) (scaleData s data))
        (fun a => a.nu)) ∧
    ((pvStart (scaleQuad s γx) (scaleQuad s γy)).pv1_1 = (pvStart γx γy).pv1_1 ∧
     (pvStart (scaleQuad s γx) (scaleQuad s γy)).pv1_2 = (pvStart γx γy).pv1_2 ∧
     (pvStart (scaleQuad s γx) (scaleQuad s γy)).pv2_1 = (pvStart γx γy).pv2_1 ∧
     (pvStart (scaleQuad s γx) (scaleQuad s γy)).pv2_2 = (pvStart γx γy).pv2_2) ∧
    ((pvStart (scaleQuad s γx) (scaleQuad s γy)).pv1_4 = (pvStart γx γy).pv1_4 / s ∧
     (pvStart (scaleQuad s γx) (scaleQuad s γy)).pv1_5 = (pvStart γx γy).pv1_5 / s ∧
     (pvStart (scaleQuad s γx) (scaleQuad s γy)).pv1_6 = (pvStart γx γy).pv1_6 / s ∧
     (pvStart (scaleQuad s γx) (scaleQuad s γy)).pv2_4 = (pvStart γx γy).pv2_4 / s ∧
     (pvStart (scaleQuad s γx) (scaleQuad s γy)).pv2_5 = (pvStart γx γy).pv2_5 / s ∧
     (pvStart (scaleQuad s γx) (scaleQuad s γy)).pv2_6 = (pvStart γx γy).pv2_6 / s) := by
  refine ⟨⟨isOLSLin_smul (fun o => rfl) hx, isOLSLin_smul (fun o => rfl) hy⟩,
    fun i => rcEntry_smul px py i hs,
    fun e => ⟨rfl, rfl⟩,
    ⟨?_, ?_⟩,
    ⟨rfl, rfl, rfl, rfl⟩, ⟨rfl, rfl, rfl, rfl, rfl, rfl⟩⟩
  · rw [assembleData_scale]
    exact isOLSQuad_scale hs (fun a => rfl) hqx
  · rw [assembleData_scale]
    exact isOLSQuad_scale hs (fun a => rfl) hqy

/-- Witness for C2 (amended) at scale 2 on `data0` with the exact-fit
solutions. -/
theorem c2_scale_amended_witness :
    isOLSLin (smulLin 2 pIdX) (scaleData 2 data0) (fun o => o.eta) ∧
    rcEntry (toLookup (smulLin 2 pIdX)) (toLookup (smulLin 2 pIdY)) 0
      = (rcEntry (toLookup pIdX) (toLookup pIdY) 0).map (scaleEntry 2) ∧
    (pvStart (scaleQuad 2 gEta) (scaleQuad 2 gNu)).pv1_1 = (pvStart gEta gNu).pv1_1 ∧
    (pvStart (scaleQuad 2 gEta) (scaleQuad 2 gNu)).pv1_4
      = (pvStart gEta gNu).pv1_4 / 2 := by
  obtain ⟨⟨h1, _⟩, h2, _, _, h5, h6⟩ :=
    c2_scale_amended 2 data0 pIdX pIdY idTable gEta gNu (by decide)
      isOLSLin_pIdX_data0 isOLSLin_pIdY_data0 isOLSQuad_gEta isOLSQuad_gNu
  exact ⟨h1, h2 0, h5.1, h6.1⟩

/-- C10: the affine-model table is built by iterating over all 64 quadrant
identifiers unconditionally; a quadrant whose dummy coefficient is a
missing placeholder (`params.get` returning `None`) makes the construction
raise instead of inserting a defaulted entry, so any table that is produced
at all has exactly the 64 keys 0..63. -/
theorem c10_table_complete_or_error (xp yp : LinCol → Option ℚ) :
    (∀ t, rcmetaTable xp yp = Except.ok t → t.map Prod.fst = List.range 64) ∧
    (∀ i, i < 64 → xp (LinCol.colLvl i) = none →
      ∀ t, rcmetaTable xp yp ≠ Except.ok t) := by
  constructor
  · intro t ht
    exact buildTable_ok_keys xp yp 64 t ht
  · intro i hi hnone t
    exact buildTable_ne_ok (rcEntry_missing_lvl hnone) 64 hi t

/-- Witness for C10: the identity fit yields the fully keyed table, and a
lookup missing quadrant 5's dummy coefficient never yields a table. -/
theorem c10_table_complete_or_error_witness :
    ((List.range 64).map (fun i => (i, idEntry))).map Prod.fst = List.range 64 ∧
    rcmetaTable xpBad (toLookup pIdY) ≠ Except.ok [] := by
  constructor
  · exact (c10_table_complete_or_error (toLookup pIdX) (toLookup pIdY)).1 _ (buildTableId 64)
  · exact (c10_table_complete_or_error xpBad (toLookup pIdY)).2 5 (by decide) rfl []

end FocalPlane
